import Mathlib

/-!
Verification of the synthesis job orchestration subsystem of the
Text-to-Speech API service: cache key fingerprinting, cache
serialization and fail-open behaviour, the job store and worker lease,
the HuggingFace provider retry path, and the text chunking pipeline.

Strings from the TypeScript source are modelled as `List Char`; byte
buffers (`Buffer` / `ArrayBuffer`) as `List Nat` with every element
below 256.  Stateful services are modelled by explicit state passing;
fallible code returns `Except` / `Option`.
-/

namespace TTS

/-! ## Base64 (Node `Buffer.toString('base64')` / `Buffer.from(_, 'base64')`)

Used by `CacheService.serialize`/`deserialize` for binary payloads and by
every provider's `generateCacheKey` (`Buffer.from(keyString).toString('base64')`).
-/

/-- The standard base64 alphabet, as used by Node buffers. -/
def b64Alphabet : List Char :=
  ['A','B','C','D','E','F','G','H','I','J','K','L','M','N','O','P','Q','R','S','T','U','V','W','X','Y','Z',
   'a','b','c','d','e','f','g','h','i','j','k','l','m','n','o','p','q','r','s','t','u','v','w','x','y','z',
   '0','1','2','3','4','5','6','7','8','9','+','/']

/-- The base64 digit for a 6-bit value. -/
def b64Char (n : Nat) : Char := b64Alphabet.getD n '='

/-- The 6-bit value of a base64 digit (0 for characters not in the alphabet
is never hit on well-formed input). -/
def b64Index (c : Char) : Nat := b64Alphabet.indexOf c

/-- Base64 encoding of a byte list, including `=` padding, exactly as
`Buffer.toString('base64')` produces it. -/
def b64Encode : List Nat → List Char
  | [] => []
  | [a] => [b64Char (a / 4), b64Char (a % 4 * 16), '=', '=']
  | [a, b] => [b64Char (a / 4), b64Char (a % 4 * 16 + b / 16), b64Char (b % 16 * 4), '=']
  | a :: b :: c :: rest =>
      b64Char (a / 4) :: b64Char (a % 4 * 16 + b / 16) ::
      b64Char (b % 16 * 4 + c / 64) :: b64Char (c % 64) :: b64Encode rest

/-- Base64 decoding (`Buffer.from(_, 'base64')`) on the well-formed strings
that `b64Encode` produces: four digits at a time, stopping at padding. -/
def b64Decode : List Char → List Nat
  | c1 :: c2 :: c3 :: c4 :: rest =>
      if c3 = '=' then
        [b64Index c1 * 4 + b64Index c2 / 16]
      else if c4 = '=' then
        [b64Index c1 * 4 + b64Index c2 / 16,
         b64Index c2 % 16 * 16 + b64Index c3 / 4]
      else
        (b64Index c1 * 4 + b64Index c2 / 16) ::
        (b64Index c2 % 16 * 16 + b64Index c3 / 4) ::
        (b64Index c3 % 4 * 64 + b64Index c4) :: b64Decode rest
  | _ => []

/-! ## CacheService

`src/tts-api-service/src/services/CacheService.ts`.  The Redis store is
modelled as an association list from formatted key to (serialized value,
TTL); `isConnected` mirrors the connection flag that every operation
checks first.  Redis command failures other than disconnection are
handled by the same catch-all paths and are not distinguished here.
-/

/-- Result of `CacheService.deserialize`: either a decoded binary Buffer
(the typed envelope case) or any other parse result, kept opaque as the
raw serialized text. -/
inductive JSVal where
  | buffer (bytes : List Nat)
  | raw (s : List Char)
deriving DecidableEq

/-- The characters of the JSON envelope up to the opening quote of the
`data` field: `{"type":"Buffer","data":"`.  (Braces written as escapes.) -/
def bufEnvelopeOpen : List Char :=
  ("\x7b\"type\":\"Buffer\",\"data\":\"").toList

/-- `CacheService.serialize` on a Buffer: wrap the base64 text in the
typed JSON envelope.  (The non-Buffer branch is plain `JSON.stringify`
and is not exercised by any claim.) -/
def serialize (b : List Nat) : List Char :=
  bufEnvelopeOpen ++ b64Encode b ++ ['"', '\x7d']

/-- Remove an expected leading character sequence, or fail. -/
def stripPre : List Char → List Char → Option (List Char)
  | [], s => some s
  | _ :: _, [] => none
  | p :: ps, c :: cs => if c = p then stripPre ps cs else none

/-- `CacheService.deserialize`: `JSON.parse`, and if the result is the
typed Buffer envelope, decode the base64 payload; anything else (or a
parse failure) is returned as a non-Buffer value. -/
def deserialize (s : List Char) : JSVal :=
  match stripPre bufEnvelopeOpen s with
  | none => .raw s
  | some rest =>
      let d := rest.takeWhile (fun c => c != '"')
      let tail := rest.dropWhile (fun c => c != '"')
      if tail = ['"', '\x7d'] then .buffer (b64Decode d) else .raw s

/-! ### Cache state and operations (fail-open behaviour) -/

/-- One cache entry: formatted key, serialized value, optional TTL in
seconds (expiry itself is not modelled; an expired entry is an absent
entry). -/
abbrev CacheEntry := List Char × List Char × Option Nat

/-- The observable state of `CacheService`: the connection flag and the
backing key/value store. -/
structure CacheState where
  isConnected : Bool
  store : List CacheEntry
deriving DecidableEq

/-- `CacheService.formatKey`: namespacing with the `tts:` prefix. -/
def formatKey (k : List Char) : List Char := ("tts:").toList ++ k

/-- Overwrite-or-insert for the backing store (Redis `SET`/`SETEX`). -/
def setEntry (st : List CacheEntry) (k v : List Char) (ttl : Option Nat) :
    List CacheEntry :=
  st.filter (fun e => e.1 != k) ++ [(k, v, ttl)]

/-- Value lookup in the backing store. -/
def lookupEntry (st : List CacheEntry) (k : List Char) : Option (List Char) :=
  (st.lookup k).map (fun e => e.1)

/-- `CacheService.set` for a Buffer value: skipped entirely when not
connected. -/
def cacheSet (s : CacheState) (k : List Char) (v : List Nat) (ttl : Option Nat) :
    CacheState :=
  if s.isConnected = false then s
  else { s with store := setEntry s.store (formatKey k) (serialize v) ttl }

/-- `CacheService.get`: `null` when not connected; otherwise the
deserialized stored value (an empty stored string is falsy and also
yields `null`). -/
def cacheGet (s : CacheState) (k : List Char) : Option JSVal :=
  if s.isConnected = false then none
  else
    match lookupEntry s.store (formatKey k) with
    | none => none
    | some v => if v = [] then none else some (deserialize v)

/-- `CacheService.delete`: skipped entirely when not connected. -/
def cacheDelete (s : CacheState) (k : List Char) : CacheState :=
  if s.isConnected = false then s
  else { s with store := s.store.filter (fun e => e.1 != formatKey k) }

/-- `CacheService.exists`: `false` when not connected. -/
def cacheExists (s : CacheState) (k : List Char) : Bool :=
  if s.isConnected = false then false
  else (lookupEntry s.store (formatKey k)).isSome

/-- The synchronous, non-streaming path of `synthesizeText`
(`TTSService.ts` lines 143-180 restricted to that path): cache lookup,
then provider synthesis (whose produced audio is the `providerAudio`
argument), then cache write. -/
def synthesizeSyncFlow (cache : CacheState) (cacheKey : List Char)
    (providerAudio : List Nat) : JSVal × CacheState :=
  match cacheGet cache cacheKey with
  | some cached => (cached, cache)
  | none => (.buffer providerAudio, cacheSet cache cacheKey providerAudio (some 3600))

/-! ## Request fingerprint (`generateCacheKey`)

`TTSService.generateCacheKey` (Google), `HuggingFaceTTSService.generateCacheKey`
and `ElevenLabsTTSService.generateCacheKey` all build
`JSON.stringify({text: text.slice(0,100), voice, audioConfig, ...})` and
return `Buffer.from(keyString).toString('base64').slice(0, 32)`; the
HuggingFace and ElevenLabs variants additionally put a `service` field at
the end of the key object, the Google variant has none.
-/

/-- Voice selector of a `SynthesisRequest`; absent fields are omitted by
`JSON.stringify`. -/
structure VoiceOpts where
  languageCode : Option (List Char)
  name : Option (List Char)
  ssmlGender : Option (List Char)
deriving DecidableEq

/-- Audio options of a `SynthesisRequest`.  The numeric options are
modelled as integers (`JSON.stringify` renders integral JS numbers the
same way); absent fields are omitted. -/
structure AudioOpts where
  audioEncoding : Option (List Char)
  speakingRate : Option Int
  pitch : Option Int
  volumeGainDb : Option Int
  sampleRateHertz : Option Int
deriving DecidableEq

/-- JSON string escaping as performed by `JSON.stringify` on the quote
and backslash characters (control-character escapes are not modelled;
no claim input contains them). -/
def jsonEscapeChar (c : Char) : List Char :=
  if c = '"' then ['\\', '"']
  else if c = '\\' then ['\\', '\\']
  else [c]

/-- A JSON string literal. -/
def jsonStr (s : List Char) : List Char :=
  '"' :: (s.map jsonEscapeChar).flatten ++ ['"']

/-- A JSON number literal for an integral JS number. -/
def jsonInt (i : Int) : List Char := (toString i).toList

/-- A JSON object from named fields in insertion order, skipping fields
whose value is `undefined`, exactly like `JSON.stringify`. -/
def jsonObj (fields : List (List Char × Option (List Char))) : List Char :=
  let present := fields.filterMap (fun f => f.2.map (fun v => jsonStr f.1 ++ ':' :: v))
  '\x7b' :: (List.intercalate [','] present) ++ ['\x7d']

/-- `JSON.stringify` of a voice selector. -/
def voiceJson (v : VoiceOpts) : List Char :=
  jsonObj [(("languageCode").toList, v.languageCode.map jsonStr),
           (("name").toList, v.name.map jsonStr),
           (("ssmlGender").toList, v.ssmlGender.map jsonStr)]

/-- `JSON.stringify` of the audio options. -/
def audioJson (a : AudioOpts) : List Char :=
  jsonObj [(("audioEncoding").toList, a.audioEncoding.map jsonStr),
           (("speakingRate").toList, a.speakingRate.map jsonInt),
           (("pitch").toList, a.pitch.map jsonInt),
           (("volumeGainDb").toList, a.volumeGainDb.map jsonInt),
           (("sampleRateHertz").toList, a.sampleRateHertz.map jsonInt)]

/-- The `keyString` built by `generateCacheKey`: the key-data object in
insertion order `text`, `voice`, `audioConfig`, then (for the
HuggingFace/ElevenLabs variants) `service`. -/
def keyString (text : List Char) (voice : Option VoiceOpts)
    (audio : Option AudioOpts) (service : Option (List Char)) : List Char :=
  jsonObj [(("text").toList, some (jsonStr (text.take 100))),
           (("voice").toList, voice.map voiceJson),
           (("audioConfig").toList, audio.map audioJson),
           (("service").toList, service.map jsonStr)]

/-- `Buffer.from(keyString).toString('base64').slice(0, 32)`.  Characters
are mapped to their code points, which for the ASCII texts of interest
coincides with UTF-8 bytes. -/
def jsKeyOf (ks : List Char) : List Char :=
  (b64Encode (ks.map Char.toNat)).take 32

/-- `TTSService.generateCacheKey` (Google provider): no service field. -/
def googleGenerateCacheKey (text : List Char) (voice : Option VoiceOpts)
    (audio : Option AudioOpts) : List Char :=
  jsKeyOf (keyString text voice audio none)

/-- `HuggingFaceTTSService.generateCacheKey`: service field
`"huggingface"`. -/
def hfGenerateCacheKey (text : List Char) (voice : Option VoiceOpts)
    (audio : Option AudioOpts) : List Char :=
  jsKeyOf (keyString text voice audio (some (("huggingface").toList)))

/-- `ElevenLabsTTSService.generateCacheKey`: service field
`"elevenlabs"`. -/
def elGenerateCacheKey (text : List Char) (voice : Option VoiceOpts)
    (audio : Option AudioOpts) : List Char :=
  jsKeyOf (keyString text voice audio (some (("elevenlabs").toList)))

/-! ## HuggingFace provider (`HuggingFaceTTSService.ts`)

`callHuggingFaceAPI` makes one axios POST; on HTTP 503 ("model loading")
it waits 10 seconds and retries exactly once, propagating the retry's
own error unwrapped; any other failure is wrapped as a
`Hugging Face API error: <status> - <message>` error.  `performSynthesis`
rejects empty responses, and its catch block converts any error whose
message contains "rate limit" or "model loading" into 8 KB of generated
mock audio returned as a success.  The two outbound HTTP calls are
modelled by their outcomes (`first` for the initial call, `second` for
the retry).
-/

/-- Outcome of one outbound HTTP call: response data, or an error with
an optional HTTP status (`error.response?.status`) and a message. -/
inductive ApiOutcome where
  | success (data : List Nat)
  | failure (status : Option Nat) (message : List Char)
deriving DecidableEq

/-- Rendering of `error.response?.status` inside a template literal:
`undefined` when there was no response. -/
def statusText : Option Nat → List Char
  | none => ("undefined").toList
  | some n => (toString n).toList

/-- Result of `callHuggingFaceAPI` together with the observable call
effort: how many HTTP calls were made and which backoff delays (in
milliseconds) were awaited before retrying. -/
structure HfCall where
  result : Except (List Char) (List Nat)
  calls : Nat
  delaysMs : List Nat

/-- `HuggingFaceTTSService.callHuggingFaceAPI`. -/
def callHuggingFaceAPI (first second : ApiOutcome) : HfCall :=
  match first with
  | .success d => ⟨.ok d, 1, []⟩
  | .failure st msg =>
      if st = some 503 then
        match second with
        | .success d => ⟨.ok d, 2, [10000]⟩
        | .failure _ msg2 => ⟨.error msg2, 2, [10000]⟩
      else
        ⟨.error (("Hugging Face API error: ").toList ++ statusText st ++
                 (" - ").toList ++ msg), 1, []⟩

/-- Decidable list prefix test. -/
def listIsPre : List Char → List Char → Bool
  | [], _ => true
  | _ :: _, [] => false
  | a :: as, b :: bs => a == b && listIsPre as bs

/-- `String.prototype.includes`: substring search. -/
def hasSubstr (sub : List Char) : List Char → Bool
  | [] => listIsPre sub []
  | s :: rest => listIsPre sub (s :: rest) || hasSubstr sub rest

/-- `generateMockAudio`: an 8 KB (8192-byte) buffer.  The byte values
come from a `Math.sin`-based fill over the text length — floating
point, abstracted by `fill`; only the size is claim-relevant. -/
def generateMockAudio (fill : Nat → Nat) : List Nat :=
  (List.range 8192).map fill

/-- The empty-response guard in `performSynthesis`:
`if (!response || response.byteLength === 0) throw ...`. -/
def hfCheckEmpty : Except (List Char) (List Nat) → Except (List Char) (List Nat)
  | .ok d =>
      if d.length = 0 then
        .error (("No audio content received from Hugging Face API").toList)
      else .ok d
  | .error e => .error e

/-- The catch block of `performSynthesis`: an error whose message
contains `rate limit` or `model loading` becomes mock audio returned as
a success; any other error is rethrown. -/
def hfCatchFallback (fill : Nat → Nat) :
    Except (List Char) (List Nat) → Except (List Char) (List Nat)
  | .ok d => .ok d
  | .error e =>
      if hasSubstr (("rate limit").toList) e || hasSubstr (("model loading").toList) e then
        .ok (generateMockAudio fill)
      else .error e

/-- `HuggingFaceTTSService.performSynthesis`: call the API (with its
internal 503 retry), reject empty audio, and apply the catch-block
fallback. -/
def hfPerformSynthesis (first second : ApiOutcome) (fill : Nat → Nat) :
    Except (List Char) (List Nat) :=
  hfCatchFallback fill (hfCheckEmpty (callHuggingFaceAPI first second).result)

/-! ## Google provider (`TTSService.performSynthesis`, part_005)

The check `if (!response.audioContent) throw ...` is JS truthiness:
absent (`null`/`undefined`) content throws, but a present zero-length
Buffer is truthy and falls through.  Format conversion
(`AudioConverter.convert`) applies only when a non-MP3 encoding was
requested (an empty-string encoding is falsy) and is abstracted by
`conv`.
-/

/-- `TTSService.performSynthesis`, with the synthesis response
abstracted by its `audioContent` field. -/
def googlePerformSynthesis (audioContent : Option (List Nat))
    (requestedEncoding : Option (List Char)) (conv : List Nat → List Nat) :
    Except (List Char) (List Nat) :=
  match audioContent with
  | none => .error (("No audio content received from TTS service").toList)
  | some b =>
      match requestedEncoding with
      | none => .ok b
      | some enc =>
          if enc.isEmpty || enc == ("MP3").toList then .ok b else .ok (conv b)

/-! ## Job store (`JobQueue`, part_004)

Jobs are persisted through the cache under `job:<id>` keys with a 1 h
TTL; the store is modelled directly as an association list from id to
job record (TTL expiry appears as absence).
-/

/-- Job lifecycle status. -/
inductive JobStatus where
  | pending
  | processing
  | completed
  | failed
deriving DecidableEq

/-- The `result` field of a completed job. -/
structure JobResult where
  audioUrl : List Char
  audioContent : Option (List Nat)
  duration : Nat
  size : Nat
deriving DecidableEq

/-- A synthesis request snapshot. -/
structure SynthesisRequest where
  text : List Char
  voice : Option VoiceOpts
  audioConfig : Option AudioOpts
  async : Option Bool
  streaming : Option Bool
deriving DecidableEq

/-- A `SynthesisJob` record. -/
structure SynthesisJob where
  id : List Char
  status : JobStatus
  progress : Nat
  request : SynthesisRequest
  result : Option JobResult
  error : Option (List Char)
  createdAt : Nat
  completedAt : Option Nat
deriving DecidableEq

/-- `Partial<SynthesisJob>`: fields absent from the update are `none`. -/
structure JobUpdate where
  id : Option (List Char)
  status : Option JobStatus
  progress : Option Nat
  request : Option SynthesisRequest
  result : Option JobResult
  error : Option (List Char)
  createdAt : Option Nat
  completedAt : Option Nat
deriving DecidableEq

/-- The update with no fields present. -/
def emptyUpdate : JobUpdate := ⟨none, none, none, none, none, none, none, none⟩

/-- The spread merge `{ ...job, ...updates }` in `JobQueue.updateJob`:
every field present in the update overwrites, every absent field keeps
the stored value. -/
def mergeJob (j : SynthesisJob) (u : JobUpdate) : SynthesisJob :=
  ⟨u.id.getD j.id,
   u.status.getD j.status,
   u.progress.getD j.progress,
   u.request.getD j.request,
   match u.result with | some r => some r | none => j.result,
   match u.error with | some e => some e | none => j.error,
   u.createdAt.getD j.createdAt,
   match u.completedAt with | some t => some t | none => j.completedAt⟩

/-- The job store: id to record. -/
abbrev JobStore := List (List Char × SynthesisJob)

/-- `JobQueue.getJob`. -/
def getJob (st : JobStore) (id : List Char) : Option SynthesisJob := st.lookup id

/-- Store (overwrite) a job record, as `cacheService.set('job:<id>', ...)`. -/
def setJob (st : JobStore) (id : List Char) (j : SynthesisJob) : JobStore :=
  st.filter (fun e => e.1 != id) ++ [(id, j)]

/-- `JobQueue.updateJob`: load, merge, store back; throws
`Job not found` on a missing id. -/
def updateJob (st : JobStore) (id : List Char) (u : JobUpdate) :
    Except (List Char) JobStore :=
  match getJob st id with
  | none => .error (("Job not found").toList)
  | some j => .ok (setJob st id (mergeJob j u))

/-- `getJobResult` (textually identical in `TTSService`,
`HuggingFaceTTSService` and `ElevenLabsTTSService`): `null` unless the
job exists, its status is `completed`, and `job.result?.audioContent`
is truthy — a Buffer of any length, including empty, is truthy. -/
def getJobResult (st : JobStore) (id : List Char) : Option (List Nat) :=
  match getJob st id with
  | none => none
  | some j =>
      if j.status = .completed then j.result.bind (fun r => r.audioContent)
      else none

/-! ## Worker lease (`JobQueue.processNextJob`)

`processNextJob` guards processing with the in-process
`processingJobs : Set<string>`: the membership test and the `add` run
with no `await` between them, so check-and-acquire is atomic with
respect to other ticks of the single-threaded event loop, and the
`finally` block always deletes the id.  Two ticks competing for the
same job id are modelled as an interleaved transition system over that
id's membership bit.
-/

/-- Where one worker tick stands for the fixed job id: before the
membership check, holding the lease (processing in flight), or done
(finished or skipped). -/
inductive TickPhase where
  | ready
  | holding
  | done
deriving DecidableEq

/-- Joint state of two ticks plus the `processingJobs` membership bit
of the one job id. -/
structure LeaseState where
  p1 : TickPhase
  p2 : TickPhase
  leased : Bool
deriving DecidableEq

/-- Atomic transitions of `processNextJob` for two interleaved ticks:
acquire (membership test false, then `add`), skip (membership test
true: return without touching the job), release (the `finally` delete,
taken whether `processJob` resolved or threw). -/
inductive LeaseStep : LeaseState → LeaseState → Prop where
  | acquire1 (p : TickPhase) : LeaseStep ⟨.ready, p, false⟩ ⟨.holding, p, true⟩
  | skip1 (p : TickPhase) : LeaseStep ⟨.ready, p, true⟩ ⟨.done, p, true⟩
  | release1 (p : TickPhase) (b : Bool) : LeaseStep ⟨.holding, p, b⟩ ⟨.done, p, false⟩
  | acquire2 (p : TickPhase) : LeaseStep ⟨p, .ready, false⟩ ⟨p, .holding, true⟩
  | skip2 (p : TickPhase) : LeaseStep ⟨p, .ready, true⟩ ⟨p, .done, true⟩
  | release2 (p : TickPhase) (b : Bool) : LeaseStep ⟨p, .holding, b⟩ ⟨p, .done, false⟩

/-- States reachable from two fresh ticks with the job unleased. -/
inductive LeaseReach : LeaseState → Prop where
  | init : LeaseReach ⟨.ready, .ready, false⟩
  | step {s t : LeaseState} : LeaseReach s → LeaseStep s t → LeaseReach t

/-! ## Chunking pipeline (`TextPreprocessor.splitIntoChunks`) -/

/-- The sentence-terminating punctuation of the split regex `[.!?]+`. -/
def isSentencePunct (c : Char) : Bool := c = '.' || c = '!' || c = '?'

/-- Whitespace for `String.prototype.trim` (ASCII portion). -/
def isJsSpace (c : Char) : Bool :=
  c = ' ' || c = '\t' || c = '\n' || c = '\r' || c = '\x0b' || c = '\x0c'

/-- `text.split(/[.!?]+/)`, up to empty pieces: splitting at every
single punctuation character yields the same pieces as splitting at
maximal runs except for extra empty pieces between adjacent
punctuation, and the subsequent `filter(s => s.trim().length > 0)`
drops empty pieces either way. -/
def splitPunct : List Char → List (List Char)
  | [] => [[]]
  | c :: cs =>
      if isSentencePunct c then [] :: splitPunct cs
      else
        match splitPunct cs with
        | [] => [[c]]
        | p :: ps => (c :: p) :: ps

/-- `String.prototype.trim`: drop whitespace from the front, then from
the back (`List.rdropWhile p l` is `(l.reverse.dropWhile p).reverse`). -/
def trimChars (s : List Char) : List Char :=
  List.rdropWhile isJsSpace (s.dropWhile isJsSpace)

/-- The trimmed sentences the `splitIntoChunks` loop iterates over:
`text.split(/[.!?]+/).filter(s => s.trim().length > 0)`, each then
trimmed at the top of the loop body. -/
def sentencesOf (text : List Char) : List (List Char) :=
  ((splitPunct text).filter (fun s => !(trimChars s).isEmpty)).map trimChars

/-- The accumulation loop of `splitIntoChunks`: `cur` is
`currentChunk`; a pushed chunk is `currentChunk + '.'`; a further
sentence is appended to a non-empty chunk as `'. ' + sentence`. -/
def chunkLoop (maxLen : Nat) : List Char → List (List Char) → List (List Char)
  | cur, [] => if cur.isEmpty then [] else [cur ++ ['.']]
  | cur, s :: rest =>
      if cur.length + s.length + 1 ≤ maxLen then
        chunkLoop maxLen (cur ++ (if cur.isEmpty then s else '.' :: ' ' :: s)) rest
      else
        if cur.isEmpty then chunkLoop maxLen s rest
        else (cur ++ ['.']) :: chunkLoop maxLen s rest

/-- `TextPreprocessor.splitIntoChunks(text, maxLength)`. -/
def splitIntoChunks (text : List Char) (maxLen : Nat) : List (List Char) :=
  chunkLoop maxLen [] (sentencesOf text)

/-- Length of the longest sentence of the input (0 when none). -/
def maxSentLen (text : List Char) : Nat :=
  ((sentencesOf text).map List.length).foldr max 0

/-- Joining a group of sentences with `'. '`, the shape `currentChunk`
has while accumulating. -/
def renderGroup : List (List Char) → List Char
  | [] => []
  | [s] => s
  | s :: rest => s ++ '.' :: ' ' :: renderGroup rest

/-- Shape of each trimmed sentence the chunking loop consumes:
non-empty, already trimmed, and free of sentence punctuation (it is a
piece of the punctuation split). -/
def GoodSent (s : List Char) : Prop :=
  s ≠ [] ∧ trimChars s = s ∧ ∀ c ∈ s, isSentencePunct c = false

/-! ## Concrete example values used by counterexamples and witnesses -/

/-- A minimal request snapshot. -/
def exReq : SynthesisRequest := ⟨("hello").toList, none, none, none, none⟩

/-- A completed job with audio content. -/
def exJobCompleted : SynthesisJob :=
  ⟨("a").toList, .completed, 100, exReq,
   some ⟨("u").toList, some [1, 2], 3, 2⟩, none, 0, some 9⟩

/-- A store holding just the completed job. -/
def exStore : JobStore := [((("a").toList), exJobCompleted)]

/-- A partial update that names an earlier status. -/
def exBackward : JobUpdate := ⟨none, some .pending, none, none, none, none, none, none⟩

/-- A progress-only partial update. -/
def exProgress : JobUpdate := ⟨none, none, some 55, none, none, none, none, none⟩

/-! ## Supporting lemmas and claim theorems -/

theorem b64Index_b64Char : ∀ n < 64, b64Index (b64Char n) = n := by decide

theorem b64Char_ne_eq : ∀ n < 64, b64Char n ≠ '=' := by decide

theorem b64_roundtrip : ∀ (bs : List Nat), (∀ x ∈ bs, x < 256) →
    b64Decode (b64Encode bs) = bs
  | [], _ => rfl
  | [a], h => by
      have ha : a < 256 := h a (by simp)
      have h1 : a / 4 < 64 := by omega
      have h2 : a % 4 * 16 < 64 := by omega
      simp only [b64Encode, b64Decode, if_pos rfl]
      rw [b64Index_b64Char _ h1, b64Index_b64Char _ h2]
      exact List.cons_eq_cons.mpr ⟨by omega, rfl⟩
  | [a, b], h => by
      have ha : a < 256 := h a (by simp)
      have hb : b < 256 := h b (by simp)
      have h1 : a / 4 < 64 := by omega
      have h2 : a % 4 * 16 + b / 16 < 64 := by omega
      have h3 : b % 16 * 4 < 64 := by omega
      simp only [b64Encode, b64Decode]
      rw [if_neg (b64Char_ne_eq _ h3), if_pos (by trivial)]
      rw [b64Index_b64Char _ h1, b64Index_b64Char _ h2, b64Index_b64Char _ h3]
      exact List.cons_eq_cons.mpr ⟨by omega, List.cons_eq_cons.mpr ⟨by omega, rfl⟩⟩
  | a :: b :: c :: rest, h => by
      have ha : a < 256 := h a (by simp)
      have hb : b < 256 := h b (by simp)
      have hc : c < 256 := h c (by simp)
      have h1 : a / 4 < 64 := by omega
      have h2 : a % 4 * 16 + b / 16 < 64 := by omega
      have h3 : b % 16 * 4 + c / 64 < 64 := by omega
      have h4 : c % 64 < 64 := by omega
      have ih := b64_roundtrip rest (fun x hx => h x (by simp [hx]))
      simp only [b64Encode, b64Decode]
      rw [if_neg (b64Char_ne_eq _ h3), if_neg (b64Char_ne_eq _ h4)]
      rw [b64Index_b64Char _ h1, b64Index_b64Char _ h2, b64Index_b64Char _ h3,
        b64Index_b64Char _ h4]
      exact List.cons_eq_cons.mpr ⟨by omega, List.cons_eq_cons.mpr ⟨by omega,
        List.cons_eq_cons.mpr ⟨by omega, ih⟩⟩⟩

theorem stripPre_append (p : List Char) : ∀ s, stripPre p (p ++ s) = some s := by
  induction p with
  | nil => intro s; rfl
  | cons c cs ih => intro s; simp [stripPre, ih]

theorem getD_mem_or_default (l : List Char) (d : Char) :
    ∀ n, l.getD n d ∈ l ∨ l.getD n d = d := by
  induction l with
  | nil => intro n; right; cases n <;> rfl
  | cons x xs ih =>
      intro n
      cases n with
      | zero => left; simp [List.getD]
      | succ m =>
          rcases ih m with h | h
          · left; simpa [List.getD] using Or.inr (by simpa [List.getD] using h)
          · right; simpa [List.getD] using h

theorem b64Char_ne_quote (n : Nat) : b64Char n ≠ '"' := by
  rcases getD_mem_or_default b64Alphabet '=' n with h | h
  · intro hq
    rw [b64Char] at hq
    rw [hq] at h
    exact absurd h (by decide)
  · intro hq
    rw [b64Char] at hq
    rw [hq] at h
    exact absurd h (by decide)

theorem b64Encode_no_quote : ∀ (bs : List Nat), ∀ c ∈ b64Encode bs, c ≠ '"'
  | [] => by intro c hc; simp [b64Encode] at hc
  | [a] => by
      intro c hc
      simp only [b64Encode, List.mem_cons, List.not_mem_nil, or_false] at hc
      rcases hc with h | h | h | h <;> subst h <;>
        first
        | exact b64Char_ne_quote _
        | decide
  | [a, b] => by
      intro c hc
      simp only [b64Encode, List.mem_cons, List.not_mem_nil, or_false] at hc
      rcases hc with h | h | h | h <;> subst h <;>
        first
        | exact b64Char_ne_quote _
        | decide
  | a :: b :: c :: rest => by
      intro ch hch
      simp only [b64Encode, List.mem_cons] at hch
      rcases hch with h | h | h | h | h
      · subst h; exact b64Char_ne_quote _
      · subst h; exact b64Char_ne_quote _
      · subst h; exact b64Char_ne_quote _
      · subst h; exact b64Char_ne_quote _
      · exact b64Encode_no_quote rest ch h

theorem takeWhile_append_all {p : Char → Bool} :
    ∀ (l t : List Char), (∀ c ∈ l, p c = true) →
      (l ++ t).takeWhile p = l ++ t.takeWhile p := by
  intro l t h
  induction l with
  | nil => rfl
  | cons x xs ih =>
      have hx : p x = true := h x (by simp)
      simp only [List.cons_append, List.takeWhile_cons, hx, if_true]
      rw [ih (fun c hc => h c (by simp [hc]))]

theorem dropWhile_append_all {p : Char → Bool} :
    ∀ (l t : List Char), (∀ c ∈ l, p c = true) →
      (l ++ t).dropWhile p = t.dropWhile p := by
  intro l t h
  induction l with
  | nil => rfl
  | cons x xs ih =>
      have hx : p x = true := h x (by simp)
      simp only [List.cons_append, List.dropWhile_cons, hx, if_true]
      exact ih (fun c hc => h c (by simp [hc]))

/-- Claim C8: every binary payload round-trips byte-for-byte through
`CacheService.serialize` and `CacheService.deserialize`. -/
theorem serialize_roundtrip (b : List Nat) (hb : ∀ x ∈ b, x < 256) :
    deserialize (serialize b) = .buffer b := by
  have hq : ∀ c ∈ b64Encode b, (fun c => c != '"') c = true := by
    intro c hc
    simpa using b64Encode_no_quote b c hc
  unfold deserialize serialize
  rw [List.append_assoc, stripPre_append]
  simp only
  rw [takeWhile_append_all _ _ hq, dropWhile_append_all _ _ hq]
  have ht : List.takeWhile (fun c => c != '"') ['"', '\x7d'] = [] := by decide
  have hd : List.dropWhile (fun c => c != '"') ['"', '\x7d'] = ['"', '\x7d'] := by decide
  rw [ht, hd, if_pos rfl, List.append_nil, b64_roundtrip b hb]

/-- Witness for C8 at a concrete payload. -/
theorem serialize_roundtrip_witness :
    (∀ x ∈ [0, 255, 77, 1], x < 256) ∧
    deserialize (serialize [0, 255, 77, 1]) = .buffer [0, 255, 77, 1] :=
  ⟨by decide, serialize_roundtrip [0, 255, 77, 1] (by decide)⟩

/-- Claim C9: with the backing store unavailable, `get` returns absent,
`set` and `delete` mutate nothing (they return before issuing any Redis
command, so no error reaches the caller), `exists` is false, and the
synchronous synthesis flow still succeeds with the provider's audio,
leaving the cache untouched. -/
theorem c9_fail_open (s : CacheState) (k dk : List Char) (v audio : List Nat)
    (ttl : Option Nat) (h : s.isConnected = false) :
    cacheGet s k = none ∧ cacheSet s k v ttl = s ∧ cacheDelete s dk = s ∧
    cacheExists s k = false ∧
    synthesizeSyncFlow s k audio = (.buffer audio, s) := by
  refine ⟨?_, ?_, ?_, ?_, ?_⟩ <;>
    simp [cacheGet, cacheSet, cacheDelete, cacheExists, synthesizeSyncFlow, h]

/-- Witness for C9 at a concrete disconnected state. -/
theorem c9_fail_open_witness :
    cacheGet ⟨false, []⟩ (("k").toList) = none ∧
    cacheSet ⟨false, []⟩ (("k").toList) [7] (some 3600) = ⟨false, []⟩ ∧
    cacheDelete ⟨false, []⟩ (("q").toList) = ⟨false, []⟩ ∧
    cacheExists ⟨false, []⟩ (("k").toList) = false ∧
    synthesizeSyncFlow ⟨false, []⟩ (("k").toList) [7] = (.buffer [7], ⟨false, []⟩) :=
  c9_fail_open ⟨false, []⟩ (("k").toList) (("q").toList) [7] [7] (some 3600) rfl

/-- `getJobResult` on a missing id. -/
theorem getJobResult_of_none {st : JobStore} {id : List Char}
    (h : getJob st id = none) : getJobResult st id = none := by
  unfold getJobResult; rw [h]

/-- `getJobResult` on a present record. -/
theorem getJobResult_of_some {st : JobStore} {id : List Char} {j : SynthesisJob}
    (h : getJob st id = some j) :
    getJobResult st id =
      if j.status = .completed then j.result.bind (fun r => r.audioContent)
      else none := by
  unfold getJobResult; rw [h]

/-- Claim C10: `getJobResult` returns audio exactly when the job
exists, its status is `completed`, and its result carries audio
content; a job in any other status yields absent even though `getJob`
still returns the record. -/
theorem c10_getJobResult_guard (st : JobStore) (id : List Char) :
    (∀ b, getJobResult st id = some b ↔
      ∃ j, getJob st id = some j ∧ j.status = .completed ∧
        ∃ r, j.result = some r ∧ r.audioContent = some b) ∧
    (∀ j, getJob st id = some j → j.status ≠ .completed →
      getJobResult st id = none) := by
  constructor
  · intro b
    constructor
    · intro h
      rcases hj : getJob st id with _ | j
      · rw [getJobResult_of_none hj] at h; cases h
      · rw [getJobResult_of_some hj] at h
        by_cases hs : j.status = JobStatus.completed
        · rw [if_pos hs] at h
          rcases hr : j.result with _ | r
          · rw [hr] at h; cases h
          · rw [hr] at h
            exact ⟨j, rfl, hs, r, hr, h⟩
        · rw [if_neg hs] at h; cases h
    · rintro ⟨j, hj, hs, r, hr, hb⟩
      rw [getJobResult_of_some hj, if_pos hs, hr]
      simpa using hb
  · intro j hj hs
    rw [getJobResult_of_some hj, if_neg hs]

/-- Witness for C10 at the concrete completed job. -/
theorem c10_getJobResult_witness :
    (getJobResult exStore (("a").toList) = some [1, 2] ↔
      ∃ j, getJob exStore (("a").toList) = some j ∧ j.status = .completed ∧
        ∃ r, j.result = some r ∧ r.audioContent = some [1, 2]) ∧
    getJobResult exStore (("a").toList) = some [1, 2] :=
  ⟨(c10_getJobResult_guard exStore (("a").toList)).1 [1, 2],
   ((c10_getJobResult_guard exStore (("a").toList)).1 [1, 2]).mpr
     ⟨exJobCompleted, rfl, rfl, ⟨("u").toList, some [1, 2], 3, 2⟩, rfl, rfl⟩⟩

/-- Claim C3 counterexample: `updateJob` accepts a partial update that
reverts a completed job to `pending` — the backward status is written
to the store, neither rejected nor suppressed. -/
theorem c3_backward_status_accepted :
    exJobCompleted.status = .completed ∧
    updateJob exStore (("a").toList) exBackward =
      .ok [((("a").toList),
        ⟨("a").toList, .pending, 100, exReq,
         some ⟨("u").toList, some [1, 2], 3, 2⟩, none, 0, some 9⟩)] :=
  ⟨rfl, rfl⟩

/-- Claim C3 (amended): `updateJob` merges the partial update over the
stored record — absent fields keep their stored values and present
fields overwrite unconditionally, including `status`, so `updateJob`
itself enforces no status monotonicity. -/
theorem c3_updateJob_merge_semantics (st : JobStore) (id : List Char)
    (u : JobUpdate) (j : SynthesisJob) (hj : getJob st id = some j) :
    updateJob st id u = .ok (setJob st id (mergeJob j u)) ∧
    (u.status = none → (mergeJob j u).status = j.status) ∧
    (∀ st2, u.status = some st2 → (mergeJob j u).status = st2) ∧
    (u.progress = none → (mergeJob j u).progress = j.progress) ∧
    (u.result = none → (mergeJob j u).result = j.result) ∧
    (u.error = none → (mergeJob j u).error = j.error) ∧
    (u.completedAt = none → (mergeJob j u).completedAt = j.completedAt) := by
  refine ⟨?_, ?_, ?_, ?_, ?_, ?_, ?_⟩
  · unfold updateJob; rw [hj]
  · intro h; simp [mergeJob, h]
  · intro st2 h; simp [mergeJob, h]
  · intro h; simp [mergeJob, h]
  · intro h; simp [mergeJob, h]
  · intro h; simp [mergeJob, h]
  · intro h; simp [mergeJob, h]

/-- Witness for the amended C3 at a concrete store and update. -/
theorem c3_updateJob_merge_witness :
    updateJob exStore (("a").toList) exProgress =
      .ok (setJob exStore (("a").toList) (mergeJob exJobCompleted exProgress)) ∧
    (mergeJob exJobCompleted exProgress).status = exJobCompleted.status ∧
    (mergeJob exJobCompleted exProgress).progress = 55 := by
  have h := c3_updateJob_merge_semantics exStore (("a").toList) exProgress
    exJobCompleted rfl
  exact ⟨h.1, h.2.1 rfl, by decide⟩

/-- Claim C4 counterexample: the Google `performSynthesis` truthiness
check passes a present zero-length buffer through as a success instead
of raising the "no audio content" error. -/
theorem c4_empty_buffer_returned :
    googlePerformSynthesis (some []) none (fun b => b) = .ok [] := rfl

/-- Claim C4 (amended): the Google path raises the fatal
`No audio content received` error exactly when audio content is absent
(a present zero-length buffer is returned as-is), while the HuggingFace
path never returns an empty buffer from a successful call. -/
theorem c4_no_audio_content (first second : ApiOutcome) (fill : Nat → Nat)
    (enc : Option (List Char)) (conv : List Nat → List Nat) (b : List Nat)
    (hok : hfPerformSynthesis first second fill = .ok b) :
    googlePerformSynthesis none enc conv =
      .error (("No audio content received from TTS service").toList) ∧
    b ≠ [] := by
  refine ⟨rfl, ?_⟩
  unfold hfPerformSynthesis at hok
  rcases hres : (callHuggingFaceAPI first second).result with e | d
  · rw [hres] at hok
    simp only [hfCheckEmpty, hfCatchFallback] at hok
    by_cases hm : (hasSubstr (("rate limit").toList) e ||
        hasSubstr (("model loading").toList) e) = true
    · rw [if_pos hm] at hok
      injection hok with hb
      intro hnil
      rw [← hb] at hnil
      have := congrArg List.length hnil
      simp [generateMockAudio] at this
    · rw [if_neg hm] at hok; cases hok
  · rw [hres] at hok
    simp only [hfCheckEmpty] at hok
    by_cases hd : d.length = 0
    · rw [if_pos hd] at hok
      simp only [hfCatchFallback] at hok
      rw [if_neg (by decide)] at hok
      cases hok
    · rw [if_neg hd] at hok
      simp only [hfCatchFallback] at hok
      injection hok with hb
      intro hnil
      exact hd (by rw [hb, hnil]; rfl)

/-- Witness for the amended C4: a successful HuggingFace call with
non-empty data. -/
theorem c4_no_audio_content_witness :
    googlePerformSynthesis none none (fun b => b) =
      .error (("No audio content received from TTS service").toList) ∧
    [5, 6] ≠ ([] : List Nat) :=
  c4_no_audio_content (.success [5, 6]) (.success [5, 6]) (fun _ => 0)
    none (fun b => b) [5, 6] rfl

/-- The mock audio buffer always has 8192 bytes. -/
theorem generateMockAudio_length (fill : Nat → Nat) :
    (generateMockAudio fill).length = 8192 := by
  unfold generateMockAudio
  rw [List.length_map, List.length_range]

/-- Claim C2 counterexample: a rate-limited failure (HTTP 429, message
mentioning the rate limit) is not retried at all — one single call —
and `performSynthesis` converts it into 8 KB of generated mock audio
returned as a success instead of escalating a fatal error. -/
theorem c2_mock_fallback_on_rate_limit :
    (callHuggingFaceAPI
      (.failure (some 429) (("rate limit exceeded").toList)) (.success [1])).calls = 1 ∧
    (callHuggingFaceAPI
      (.failure (some 429) (("rate limit exceeded").toList)) (.success [1])).delaysMs = [] ∧
    hfPerformSynthesis
      (.failure (some 429) (("rate limit exceeded").toList)) (.success [1])
      (fun _ => 0) = .ok (generateMockAudio (fun _ => 0)) ∧
    (generateMockAudio (fun _ => 0)).length = 8192 := by
  refine ⟨rfl, rfl, rfl, generateMockAudio_length (fun _ => 0)⟩

/-- Claim C2 (amended): only an HTTP 503 (model warming up) triggers
the single retry, after a fixed 10-second backoff and never more than
once; a failing retry's own error propagates out of the call path
(escalating the attempt) unless its message mentions `rate limit` or
`model loading`, in which case mock audio is returned as a success. -/
theorem c2_retry_policy (d : List Nat) (second : ApiOutcome) (st : Option Nat)
    (msg msg2 : List Char) (st2 : Option Nat) (fill : Nat → Nat)
    (hns : st ≠ some 503)
    (hm1 : hasSubstr (("rate limit").toList) msg2 = false)
    (hm2 : hasSubstr (("model loading").toList) msg2 = false) :
    callHuggingFaceAPI (.success d) second = ⟨.ok d, 1, []⟩ ∧
    (callHuggingFaceAPI (.failure st msg) second).calls = 1 ∧
    (callHuggingFaceAPI (.failure st msg) second).delaysMs = [] ∧
    (callHuggingFaceAPI (.failure (some 503) msg) second).calls = 2 ∧
    (callHuggingFaceAPI (.failure (some 503) msg) second).delaysMs = [10000] ∧
    hfPerformSynthesis (.failure (some 503) msg) (.failure st2 msg2) fill =
      .error msg2 := by
  refine ⟨rfl, ?_, ?_, ?_, ?_, ?_⟩
  · simp [callHuggingFaceAPI, hns]
  · simp [callHuggingFaceAPI, hns]
  · cases second <;> simp [callHuggingFaceAPI]
  · cases second <;> simp [callHuggingFaceAPI]
  · simp [hfPerformSynthesis, callHuggingFaceAPI, hfCheckEmpty, hfCatchFallback]
    exact ⟨hm1, hm2⟩

/-- Witness for the amended C2 at concrete outcomes. -/
theorem c2_retry_policy_witness :
    callHuggingFaceAPI (.success [9]) (.success [1]) = ⟨.ok [9], 1, []⟩ ∧
    (callHuggingFaceAPI (.failure (some 400) (("bad").toList)) (.success [1])).calls = 1 ∧
    (callHuggingFaceAPI (.failure (some 400) (("bad").toList)) (.success [1])).delaysMs = [] ∧
    (callHuggingFaceAPI (.failure (some 503) (("load").toList)) (.success [1])).calls = 2 ∧
    (callHuggingFaceAPI (.failure (some 503) (("load").toList)) (.success [1])).delaysMs = [10000] ∧
    hfPerformSynthesis (.failure (some 503) (("load").toList))
      (.failure (some 503) (("timeout").toList)) (fun _ => 0) =
      .error (("timeout").toList) :=
  c2_retry_policy [9] (.success [1]) (some 400) (("load").toList)
    (("timeout").toList) (some 503) (fun _ => 0) (by decide) (by decide) (by decide)

/-- The inductive invariant of the lease system: the membership bit is
set exactly when some tick is holding, and never are both holding. -/
theorem lease_inv (s : LeaseState) (h : LeaseReach s) :
    (s.leased = true ↔ s.p1 = .holding ∨ s.p2 = .holding) ∧
    ¬(s.p1 = .holding ∧ s.p2 = .holding) := by
  induction h with
  | init => simp
  | step hr hs ih =>
      cases hs with
      | acquire1 p =>
          simp only at ih ⊢
          constructor
          · simp
          · rintro ⟨-, hp⟩
            exact absurd (ih.1.mpr (Or.inr hp)) (by simp)
      | skip1 p =>
          simp only at ih ⊢
          constructor
          · have := ih.1
            simp at this ⊢
            tauto
          · rintro ⟨hd, -⟩
            cases hd
      | release1 p b =>
          simp only at ih ⊢
          constructor
          · constructor
            · intro hf; cases hf
            · rintro (hd | hp)
              · cases hd
              · exact absurd (ih.2) (by simp [hp])
          · rintro ⟨hd, -⟩
            cases hd
      | acquire2 p =>
          simp only at ih ⊢
          constructor
          · simp
          · rintro ⟨hp, -⟩
            exact absurd (ih.1.mpr (Or.inl hp)) (by simp)
      | skip2 p =>
          simp only at ih ⊢
          constructor
          · have := ih.1
            simp at this ⊢
            tauto
          · rintro ⟨-, hd⟩
            cases hd
      | release2 p b =>
          simp only at ih ⊢
          constructor
          · constructor
            · intro hf; cases hf
            · rintro (hp | hd)
              · exact absurd (ih.2) (by simp [hp])
              · cases hd
          · rintro ⟨-, hd⟩
            cases hd

/-- Claim C5: at most one tick ever holds the processing lease for the
job id; a tick that finds the id already in `processingJobs` goes
straight to done without touching the lease or the other tick; and a
tick leaving the holding phase always releases the lease (the `finally`
delete), whether processing succeeded or failed. -/
theorem c5_at_most_one_lease :
    (∀ s, LeaseReach s → ¬(s.p1 = .holding ∧ s.p2 = .holding)) ∧
    (∀ s t, LeaseStep s t → s.p1 = .ready → s.leased = true → t.p1 ≠ s.p1 →
      t.p1 = .done ∧ t.leased = true ∧ t.p2 = s.p2) ∧
    (∀ s t, LeaseStep s t → s.p1 = .holding → t.p1 ≠ .holding →
      t.p1 = .done ∧ t.leased = false) := by
  refine ⟨fun s h => (lease_inv s h).2, ?_, ?_⟩
  · intro s t hst h1 hl hne
    cases hst <;> simp_all
  · intro s t hst h1 hne
    cases hst <;> simp_all

/-- Witness for C5: a concrete reachable state where one tick holds and
the other has skipped, plus concrete skip and release steps. -/
theorem c5_at_most_one_lease_witness :
    ¬((LeaseState.mk .holding .done true).p1 = .holding ∧
      (LeaseState.mk .holding .done true).p2 = .holding) ∧
    ((LeaseState.mk .done .holding true).p1 = .done ∧
      (LeaseState.mk .done .holding true).leased = true ∧
      (LeaseState.mk .done .holding true).p2 = .holding) ∧
    ((LeaseState.mk .done .ready false).p1 = .done ∧
      (LeaseState.mk .done .ready false).leased = false) :=
  ⟨(c5_at_most_one_lease).1 ⟨.holding, .done, true⟩
      (LeaseReach.step (LeaseReach.step LeaseReach.init (LeaseStep.acquire1 .ready))
        (LeaseStep.skip2 .holding)),
   (c5_at_most_one_lease).2.1 ⟨.ready, .holding, true⟩ ⟨.done, .holding, true⟩
      (LeaseStep.skip1 .holding) rfl rfl (by decide),
   (c5_at_most_one_lease).2.2 ⟨.holding, .ready, true⟩ ⟨.done, .ready, false⟩
      (LeaseStep.release1 .ready true) rfl (by decide)⟩

/-- Claim C1 counterexample: with no voice or audio options and a
16-character text, all three providers compute the same 32-character
cache key — the truncation to 32 base64 digits keeps only the first 24
bytes of the key JSON, and the provider-identifying `service` field
(present for HuggingFace/ElevenLabs, absent for Google) lies beyond
them. -/
theorem c1_provider_key_collision :
    googleGenerateCacheKey (("abcdefghijklmnop").toList) none none =
      hfGenerateCacheKey (("abcdefghijklmnop").toList) none none ∧
    hfGenerateCacheKey (("abcdefghijklmnop").toList) none none =
      elGenerateCacheKey (("abcdefghijklmnop").toList) none none := by
  exact ⟨by decide, by decide⟩

/-- Claim C1 (amended): each provider's cache-key function is
deterministic in the fingerprint-relevant fields — two requests whose
normalized texts agree on their first 100 characters and that carry the
same voice selector and audio options map to the same key, for each
provider; cross-provider key distinctness does not hold in general. -/
theorem c1_cacheKey_deterministic (t1 t2 : List Char) (v : Option VoiceOpts)
    (a : Option AudioOpts) (h : t1.take 100 = t2.take 100) :
    googleGenerateCacheKey t1 v a = googleGenerateCacheKey t2 v a ∧
    hfGenerateCacheKey t1 v a = hfGenerateCacheKey t2 v a ∧
    elGenerateCacheKey t1 v a = elGenerateCacheKey t2 v a := by
  unfold googleGenerateCacheKey hfGenerateCacheKey elGenerateCacheKey keyString
  rw [h]
  exact ⟨rfl, rfl, rfl⟩

/-- Witness for the amended C1: two texts that differ only beyond the
100-character fingerprint prefix. -/
theorem c1_cacheKey_deterministic_witness :
    googleGenerateCacheKey (List.replicate 101 'a') none none =
      googleGenerateCacheKey (List.replicate 100 'a' ++ ['b']) none none ∧
    hfGenerateCacheKey (List.replicate 101 'a') none none =
      hfGenerateCacheKey (List.replicate 100 'a' ++ ['b']) none none ∧
    elGenerateCacheKey (List.replicate 101 'a') none none =
      elGenerateCacheKey (List.replicate 100 'a' ++ ['b']) none none :=
  c1_cacheKey_deterministic (List.replicate 101 'a')
    (List.replicate 100 'a' ++ ['b']) none none (by decide)

/-! ### Chunking lemmas -/

theorem splitPunct_ne_nil : ∀ (l : List Char), splitPunct l ≠ []
  | [] => by simp [splitPunct]
  | c :: cs => by
      unfold splitPunct
      by_cases h : isSentencePunct c = true
      · simp [h]
      · simp only [h, if_false, Bool.false_eq_true]
        cases hs : splitPunct cs <;> simp

theorem splitPunct_append (c : Char) (hc : isSentencePunct c = true) :
    ∀ (xs ys : List Char),
      splitPunct (xs ++ c :: ys) = splitPunct xs ++ splitPunct ys
  | [], ys => by simp [splitPunct, hc]
  | x :: xs, ys => by
      have ih := splitPunct_append c hc xs ys
      by_cases hx : isSentencePunct x = true
      · simp [splitPunct, hx, ih]
      · rcases hxs : splitPunct xs with _ | ⟨p, ps⟩
        · exact absurd hxs (splitPunct_ne_nil xs)
        · simp [splitPunct, hx, ih, hxs]

theorem splitPunct_no_punct : ∀ (l : List Char),
    (∀ x ∈ l, isSentencePunct x = false) → splitPunct l = [l]
  | [], _ => rfl
  | c :: cs, h => by
      have hc : isSentencePunct c = false := h c (by simp)
      have ih := splitPunct_no_punct cs (fun x hx => h x (by simp [hx]))
      simp [splitPunct, hc, ih]

theorem splitPunct_mem_no_punct : ∀ (l p : List Char),
    p ∈ splitPunct l → ∀ c ∈ p, isSentencePunct c = false
  | [], p, hp => by
      simp [splitPunct] at hp
      subst hp; simp
  | x :: xs, p, hp => by
      by_cases hx : isSentencePunct x = true
      · simp [splitPunct, hx] at hp
        rcases hp with hp | hp
        · subst hp; simp
        · exact splitPunct_mem_no_punct xs p hp
      · rcases hxs : splitPunct xs with _ | ⟨q, qs⟩
        · exact absurd hxs (splitPunct_ne_nil xs)
        · simp [splitPunct, hx, hxs] at hp
          rcases hp with hp | hp
          · subst hp
            intro c hcm
            rcases List.mem_cons.mp hcm with rfl | hcm
            · simpa using hx
            · exact splitPunct_mem_no_punct xs q
                (by rw [hxs]; exact List.mem_cons_self q qs) c hcm
          · exact splitPunct_mem_no_punct xs p
              (by rw [hxs]; exact List.mem_cons_of_mem q hp)

theorem mem_of_mem_trimChars {c : Char} {s : List Char}
    (h : c ∈ trimChars s) : c ∈ s := by
  unfold trimChars at h
  exact (List.dropWhile_suffix isJsSpace).subset
    ((List.rdropWhile_prefix isJsSpace _).subset h)

theorem trimChars_idem (s : List Char) :
    trimChars (trimChars s) = trimChars s := by
  unfold trimChars
  set A := s.dropWhile isJsSpace with hA
  have hAd : A.dropWhile isJsSpace = A := List.dropWhile_idempotent isJsSpace s
  have hd : (List.rdropWhile isJsSpace A).dropWhile isJsSpace =
      List.rdropWhile isJsSpace A := by
    rcases ht : List.rdropWhile isJsSpace A with _ | ⟨c, cs⟩
    · simp
    · obtain ⟨u, hu⟩ := List.rdropWhile_prefix isJsSpace A
      rw [ht] at hu
      have hAc : A = c :: (cs ++ u) := by rw [← hu]; simp
      have hcf : isJsSpace c = false := by
        cases hcc : isJsSpace c
        · rfl
        · exfalso
          rw [hAc, List.dropWhile_cons, hcc, if_pos rfl] at hAd
          have h1 := congrArg List.length hAd
          rw [List.length_cons] at h1
          have h2 := (List.dropWhile_suffix (l := cs ++ u) isJsSpace).sublist.length_le
          omega
      rw [List.dropWhile_cons, hcf]
      simp
  rw [hd, List.rdropWhile_idempotent]

theorem trimChars_cons_space {c : Char} (hc : isJsSpace c = true)
    (s : List Char) : trimChars (c :: s) = trimChars s := by
  unfold trimChars
  rw [List.dropWhile_cons, hc]
  simp

theorem sentencesOf_nil : sentencesOf [] = [] := rfl

theorem sentencesOf_append {c : Char} (hc : isSentencePunct c = true)
    (xs ys : List Char) :
    sentencesOf (xs ++ c :: ys) = sentencesOf xs ++ sentencesOf ys := by
  unfold sentencesOf
  rw [splitPunct_append c hc, List.filter_append, List.map_append]

theorem sentencesOf_good {text s : List Char}
    (h : s ∈ sentencesOf text) : GoodSent s := by
  unfold sentencesOf at h
  rcases List.mem_map.mp h with ⟨p, hp, rfl⟩
  have hpf := List.mem_filter.mp hp
  refine ⟨?_, trimChars_idem p, ?_⟩
  · intro hnil
    have h2 := hpf.2
    rw [hnil] at h2
    simp at h2
  · intro ch hch
    exact splitPunct_mem_no_punct text p hpf.1 ch (mem_of_mem_trimChars hch)

theorem sentencesOf_of_good {s : List Char} (h : GoodSent s) :
    sentencesOf s = [s] := by
  obtain ⟨hne, htrim, hnp⟩ := h
  unfold sentencesOf
  rw [splitPunct_no_punct s hnp]
  simp [htrim, hne]

theorem sentencesOf_space (xs : List Char) :
    sentencesOf (' ' :: xs) = sentencesOf xs := by
  rcases hxs : splitPunct xs with _ | ⟨p, ps⟩
  · exact absurd hxs (splitPunct_ne_nil xs)
  · have hnp : isSentencePunct ' ' = false := rfl
    have hsp : splitPunct (' ' :: xs) = (' ' :: p) :: ps := by
      simp [splitPunct, hnp, hxs]
    have ht : trimChars (' ' :: p) = trimChars p :=
      trimChars_cons_space (c := ' ') (by decide) p
    unfold sentencesOf
    rw [hsp, hxs]
    simp only [List.filter_cons, ht]
    by_cases hb : (!(trimChars p).isEmpty) = true
    · rw [if_pos hb, if_pos hb]
      simp [ht]
    · rw [if_neg hb, if_neg hb]

theorem renderGroup_ne_nil : ∀ (g : List (List Char)), g ≠ [] →
    (∀ s ∈ g, GoodSent s) → renderGroup g ≠ []
  | [], h, _ => absurd rfl h
  | [s], _, h => by
      have hs := (h s (by simp)).1
      simpa [renderGroup] using hs
  | s :: t :: g, _, h => by
      have hs := (h s (by simp)).1
      intro hx
      rw [show renderGroup (s :: t :: g) =
        s ++ '.' :: ' ' :: renderGroup (t :: g) from rfl] at hx
      exact hs (List.append_eq_nil.mp hx).1

theorem renderGroup_snoc : ∀ (g : List (List Char)) (s : List Char), g ≠ [] →
    renderGroup (g ++ [s]) = renderGroup g ++ '.' :: ' ' :: s
  | [], _, h => absurd rfl h
  | [x], s, _ => by simp [renderGroup]
  | x :: y :: g, s, _ => by
      have ih := renderGroup_snoc (y :: g) s (by simp)
      show x ++ '.' :: ' ' :: renderGroup (y :: g ++ [s]) =
        (x ++ '.' :: ' ' :: renderGroup (y :: g)) ++ '.' :: ' ' :: s
      rw [ih]
      simp

theorem sentencesOf_render_dot : ∀ (g : List (List Char)),
    (∀ s ∈ g, GoodSent s) → ∀ (tail : List Char),
      sentencesOf (renderGroup g ++ '.' :: tail) = g ++ sentencesOf tail
  | [], _, tail => by
      have h := sentencesOf_append (c := '.') rfl [] tail
      simpa [renderGroup, sentencesOf_nil] using h
  | [s], h, tail => by
      have hg : GoodSent s := h s (by simp)
      show sentencesOf (s ++ '.' :: tail) = [s] ++ sentencesOf tail
      rw [sentencesOf_append (c := '.') (by decide) s tail, sentencesOf_of_good hg]
  | s :: t :: g, h, tail => by
      have hg : GoodSent s := h s (by simp)
      have ih := sentencesOf_render_dot (t :: g)
        (fun x hx => h x (List.mem_cons_of_mem s hx)) tail
      show sentencesOf ((s ++ '.' :: ' ' :: renderGroup (t :: g)) ++ '.' :: tail) =
        (s :: t :: g) ++ sentencesOf tail
      rw [List.append_assoc]
      simp only [List.cons_append]
      rw [sentencesOf_append (c := '.') (by decide) s
          (' ' :: (renderGroup (t :: g) ++ '.' :: tail)),
        sentencesOf_of_good hg, sentencesOf_space, ih]
      simp

theorem chunkLoop_ne_nil (maxLen : Nat) : ∀ (ss : List (List Char))
    (cur c : List Char), c ∈ chunkLoop maxLen cur ss → c ≠ []
  | [], cur, c => by
      intro hc
      unfold chunkLoop at hc
      by_cases h : cur.isEmpty
      · simp [h] at hc
      · simp [h] at hc
        subst hc; simp
  | s :: rest, cur, c => by
      intro hc
      unfold chunkLoop at hc
      by_cases h1 : cur.length + s.length + 1 ≤ maxLen
      · rw [if_pos h1] at hc
        exact chunkLoop_ne_nil maxLen rest _ c hc
      · rw [if_neg h1] at hc
        by_cases h2 : cur.isEmpty
        · simp [h2] at hc
          exact chunkLoop_ne_nil maxLen rest s c hc
        · simp [h2] at hc
          rcases hc with hc | hc
          · subst hc; simp
          · exact chunkLoop_ne_nil maxLen rest s c hc

theorem chunkLoop_sentences (maxLen : Nat) : ∀ (ss g : List (List Char)),
    (∀ s ∈ ss, GoodSent s) → (∀ s ∈ g, GoodSent s) →
    sentencesOf (chunkLoop maxLen (renderGroup g) ss).flatten = g ++ ss
  | [], [], _, _ => by simp [chunkLoop, renderGroup, sentencesOf_nil]
  | [], t :: g', _, hg => by
      have hne : renderGroup (t :: g') ≠ [] := renderGroup_ne_nil _ (by simp) hg
      have hie : (renderGroup (t :: g')).isEmpty = false := by
        rcases hrg : renderGroup (t :: g') with _ | _
        · exact absurd hrg hne
        · rfl
      unfold chunkLoop
      rw [hie]
      simp only [Bool.false_eq_true, if_false, List.flatten_cons, List.flatten_nil,
        List.append_nil]
      have hsent := sentencesOf_render_dot (t :: g') hg []
      simpa [sentencesOf_nil] using hsent
  | s :: rest, [], hss, _ => by
      have hs : GoodSent s := hss s (by simp)
      have hrest : ∀ x ∈ rest, GoodSent x :=
        fun x hx => hss x (List.mem_cons_of_mem s hx)
      have ih := chunkLoop_sentences maxLen rest [s] hrest
        (by intro x hx; simp at hx; subst hx; exact hs)
      rw [show renderGroup [s] = s from rfl] at ih
      show sentencesOf (chunkLoop maxLen (renderGroup []) (s :: rest)).flatten =
        [] ++ s :: rest
      unfold chunkLoop
      simp only [renderGroup, List.isEmpty_nil, if_true, List.nil_append,
        List.length_nil]
      split <;> simpa using ih
  | s :: rest, t :: g', hss, hg => by
      have hs : GoodSent s := hss s (by simp)
      have hrest : ∀ x ∈ rest, GoodSent x :=
        fun x hx => hss x (List.mem_cons_of_mem s hx)
      have hne : renderGroup (t :: g') ≠ [] := renderGroup_ne_nil _ (by simp) hg
      have hie : (renderGroup (t :: g')).isEmpty = false := by
        rcases hrg : renderGroup (t :: g') with _ | _
        · exact absurd hrg hne
        · rfl
      unfold chunkLoop
      rw [hie]
      simp only [Bool.false_eq_true, if_false]
      split
      · have hgood : ∀ x ∈ (t :: g') ++ [s], GoodSent x := by
          intro x hx
          rcases List.mem_append.mp hx with hx | hx
          · exact hg x hx
          · simp at hx; subst hx; exact hs
        have ih := chunkLoop_sentences maxLen rest ((t :: g') ++ [s]) hrest hgood
        rw [renderGroup_snoc (t :: g') s (by simp)] at ih
        simpa using ih
      · have ih := chunkLoop_sentences maxLen rest [s] hrest
          (by intro x hx; simp at hx; subst hx; exact hs)
        rw [show renderGroup [s] = s from rfl] at ih
        rw [List.flatten_cons, List.append_assoc, List.singleton_append,
          sentencesOf_render_dot (t :: g') hg _, ih]
        simp

/-- Claim C6: every chunk `splitIntoChunks` returns is non-empty, and
the sentences of the concatenated chunks are exactly the sentences of
the input — same order, nothing duplicated, nothing dropped. -/
theorem c6_chunks_preserve_sentences (text : List Char) (maxLen : Nat) :
    (∀ c ∈ splitIntoChunks text maxLen, c ≠ []) ∧
    sentencesOf (splitIntoChunks text maxLen).flatten = sentencesOf text := by
  constructor
  · intro c hc
    exact chunkLoop_ne_nil maxLen (sentencesOf text) [] c hc
  · have h := chunkLoop_sentences maxLen (sentencesOf text) []
      (fun s hs => sentencesOf_good hs) (by intro s hs; simp at hs)
    simpa [splitIntoChunks, renderGroup] using h

/-- Witness for C6 at a concrete two-sentence text. -/
theorem c6_chunks_preserve_sentences_witness :
    ("a. b.").toList ≠ [] ∧
    sentencesOf (splitIntoChunks (("a. b.").toList) 5).flatten =
      sentencesOf (("a. b.").toList) :=
  ⟨(c6_chunks_preserve_sentences (("a. b.").toList) 5).1
      (("a. b.").toList) (by decide),
   (c6_chunks_preserve_sentences (("a. b.").toList) 5).2⟩

theorem le_foldr_max : ∀ (l : List Nat) (x : Nat), x ∈ l → x ≤ l.foldr max 0
  | [], x, hx => by simp at hx
  | y :: l, x, hx => by
      rcases List.mem_cons.mp hx with rfl | hx
      · simp only [List.foldr_cons]
        exact le_max_left _ _
      · simp only [List.foldr_cons]
        exact le_trans (le_foldr_max l x hx) (le_max_right _ _)

theorem chunk_push_length (maxLen M : Nat) (cur : List Char)
    (hcur : cur.length ≤ max (maxLen + 1) M) :
    (cur ++ ['.']).length ≤ max (maxLen + 2) (M + 1) := by
  simp only [List.length_append, List.length_cons, List.length_nil]
  rcases Nat.le_total (maxLen + 1) M with h | h
  · rw [max_eq_right h] at hcur
    exact le_trans (by omega) (le_max_right _ _)
  · rw [max_eq_left h] at hcur
    exact le_trans (by omega) (le_max_left _ _)

theorem chunkLoop_length_bound (maxLen M : Nat) : ∀ (ss : List (List Char))
    (cur : List Char), cur.length ≤ max (maxLen + 1) M →
    (∀ s ∈ ss, s.length ≤ M) →
    ∀ c ∈ chunkLoop maxLen cur ss, c.length ≤ max (maxLen + 2) (M + 1)
  | [], cur, hcur, _, c, hc => by
      unfold chunkLoop at hc
      by_cases he : cur.isEmpty
      · simp [he] at hc
      · simp [he] at hc
        subst hc
        exact chunk_push_length maxLen M cur hcur
  | s :: rest, cur, hcur, hss, c, hc => by
      have hsM : s.length ≤ M := hss s (by simp)
      have hrest : ∀ x ∈ rest, x.length ≤ M :=
        fun x hx => hss x (List.mem_cons_of_mem s hx)
      unfold chunkLoop at hc
      by_cases h1 : cur.length + s.length + 1 ≤ maxLen
      · rw [if_pos h1] at hc
        refine chunkLoop_length_bound maxLen M rest _ ?_ hrest c hc
        by_cases he : cur.isEmpty
        · have hc0 : cur = [] := List.isEmpty_iff.mp he
          subst hc0
          exact le_trans hsM (le_max_right _ _)
        · simp only [he, Bool.false_eq_true, if_false]
          simp only [List.length_append, List.length_cons]
          refine le_trans ?_ (le_max_left _ _)
          omega
      · rw [if_neg h1] at hc
        by_cases he : cur.isEmpty
        · simp [he] at hc
          exact chunkLoop_length_bound maxLen M rest s
            (le_trans hsM (le_max_right _ _)) hrest c hc
        · simp [he] at hc
          rcases hc with hc | hc
          · subst hc
            exact chunk_push_length maxLen M cur hcur
          · exact chunkLoop_length_bound maxLen M rest s
              (le_trans hsM (le_max_right _ _)) hrest c hc

/-- Claim C7 counterexample: a single sentence longer than `maxLen`
becomes a chunk of length 7 > 3 — chunks are not bounded by `maxLen`. -/
theorem c7_chunk_exceeds_maxLen :
    splitIntoChunks (("abcdef.").toList) 3 = [("abcdef.").toList] ∧
    (("abcdef.").toList).length = 7 ∧
    ¬((("abcdef.").toList).length ≤ 3) :=
  ⟨by decide, by decide, by decide⟩

/-- Claim C7 (amended): a chunk's length is bounded not by `maxLen` but
by `max (maxLen + 2) (longest sentence + 1)`: the accumulation check
counts one joining character while `'. '` plus the final `'.'` add
three, and a single sentence longer than `maxLen` becomes its own
over-long chunk. -/
theorem c7_chunk_length_bound (text : List Char) (maxLen : Nat)
    (c : List Char) (hc : c ∈ splitIntoChunks text maxLen) :
    c.length ≤ max (maxLen + 2) (maxSentLen text + 1) := by
  refine chunkLoop_length_bound maxLen (maxSentLen text) (sentencesOf text) []
    (by simp) ?_ c hc
  intro s hs
  exact le_foldr_max _ _ (List.mem_map_of_mem List.length hs)

/-- Witness for the amended C7 at a concrete text. -/
theorem c7_chunk_length_bound_witness :
    (("ab.").toList).length ≤ max (10 + 2) (maxSentLen (("ab.").toList) + 1) :=
  c7_chunk_length_bound (("ab.").toList) 10 (("ab.").toList) (by decide)

end TTS

